import Mathlib

/-!
Verification of the retrieval core of `ModuleA/crawlers/news.py`:
tokenizer, inverted index builder, TF-IDF and BM25 scoring, and the
search orchestrator of `CLIRSystem`.  Python floats are modelled as
real numbers (`avg_doc_length`, an exact quotient of integers, as a
rational); Python ints as `Nat`.  Wall-clock fields of a search record
(latency, timestamp) are left out of the model: no claim mentions them.
-/

namespace BaECLIR

/-- Document record as consumed by `InvertedIndex.build_index`; only the
fields the indexer tokenizes (`title`, `body`) are modelled, the other
metadata fields play no role in any claim. -/
structure Doc where
  title : String
  body : String

/-- Python regex class `\w` (ASCII range): letter, digit or underscore. -/
def isWordChar (c : Char) : Bool := c.isAlphanum || c == '_'

/-- One character of the `re.sub` step with pattern `[^\w\s]`: a character
that is neither a word character nor whitespace becomes a space. -/
def cleanChar (c : Char) : Char :=
  if isWordChar c || c.isWhitespace then c else ' '

/-- Auxiliary for Python `str.split()`: walks the text accumulating the
current token (reversed); whitespace closes the token, empty tokens are
never produced. -/
def splitWsAux (acc : List Char) : List Char → List (List Char)
  | [] => if acc.isEmpty then [] else [acc.reverse]
  | c :: cs =>
    if c.isWhitespace then
      if acc.isEmpty then splitWsAux [] cs else acc.reverse :: splitWsAux [] cs
    else splitWsAux (c :: acc) cs

/-- Python `str.split()` with no argument: split on whitespace runs. -/
def splitWs (l : List Char) : List (List Char) := splitWsAux [] l

/-- Embedding of `InvertedIndex.tokenize`: lower-case, replace every
character matching `[^\w\s]` by a space, split on whitespace, keep tokens
of length `> 2`. -/
def tokenize (s : String) : List String :=
  ((splitWs ((s.data.map Char.toLower).map cleanChar)).map
      (fun cs => String.mk cs)).filter (fun t => 2 < t.length)

/-- Modelled from the spec (§4.1 Tokenizer): the kept character class is
letter/digit/whitespace only; any other character becomes a space. -/
def specClean (c : Char) : Char :=
  if c.isAlphanum || c.isWhitespace then c else ' '

/-- Modelled from the spec (§4.1 Tokenizer), following its words: lower-case
the text, replace any character that is not a letter/digit/whitespace with a
space, split on whitespace, drop tokens of length `≤ 2`. -/
def tokenizeSpec (s : String) : List String :=
  (((((s.data.map Char.toLower).map specClean).splitOnP
          (fun c => c.isWhitespace)).filter (fun cs => !cs.isEmpty)).map
      (fun cs => String.mk cs)).filter (fun t => 2 < t.length)

/-- Amended kept character class: letter, digit, underscore or whitespace
(the underscore is part of Python's `\w`). -/
def specCleanAmended (c : Char) : Char :=
  if c.isAlphanum || c == '_' || c.isWhitespace then c else ' '

/-- The spec's tokenizer pipeline with the amended character class. -/
def tokenizeSpecAmended (s : String) : List String :=
  (((((s.data.map Char.toLower).map specCleanAmended).splitOnP
          (fun c => c.isWhitespace)).filter (fun cs => !cs.isEmpty)).map
      (fun cs => String.mk cs)).filter (fun t => 2 < t.length)

/-- Tokens of one document: `tokenize` applied to `title + " " + body`. -/
def docTokens (doc : Doc) : List String := tokenize (doc.title ++ " " ++ doc.body)

/-- State of `InvertedIndex` after `build_index`. -/
structure InvIndex where
  totalDocs : Nat
  docLengths : Nat → Option Nat
  avgDocLength : ℚ
  postings : String → List (Nat × Nat)
  vocab : Finset String

/-- Term frequency of term `t` in document `d` of the batch
(`Counter(tokens)[t]`; `0` when `d` is out of range). -/
def tfIn (docs : List Doc) (t : String) (d : Nat) : Nat :=
  ((docs[d]?).map (fun doc => (docTokens doc).count t)).getD 0

/-- Embedding of `InvertedIndex.build_index`: sequential ids in input order; per document
record the token count; every term with positive count contributes one
posting `(doc_id, tf)`, appended in ascending document-id order; vocabulary
collects every token; `avg_doc_length = total_length / total_docs` guarded
by `total_docs > 0`. -/
def buildIndex (docs : List Doc) : InvIndex where
  totalDocs := docs.length
  docLengths := fun d => (docs[d]?).map (fun doc => (docTokens doc).length)
  avgDocLength :=
    if 0 < docs.length then
      (((docs.map (fun doc => (docTokens doc).length)).sum : ℚ)) / (docs.length : ℚ)
    else 0
  postings := fun t =>
    (List.range docs.length).filterMap (fun d =>
      if 0 < tfIn docs t d then some (d, tfIn docs t d) else none)
  vocab := ((docs.map docTokens).flatten).toFinset

/-- Linear posting-list scan of both scoring loops
(`for pid, ptf in postings: if pid == doc_id: tf = ptf; break`). -/
def getTf : List (Nat × Nat) → Nat → Nat
  | [], _ => 0
  | p :: rest, docId => if p.1 = docId then p.2 else getTf rest docId

/-- Embedding of `InvertedIndex.get_postings`: `self.index.get(term, [])`. -/
def InvIndex.getPostings (idx : InvIndex) (t : String) : List (Nat × Nat) :=
  idx.postings t

/-- Embedding of `InvertedIndex.get_doc_freq`: `len(self.index.get(term, []))`. -/
def InvIndex.getDocFreq (idx : InvIndex) (t : String) : Nat :=
  (idx.postings t).length

/-- Smoothed IDF of `TFIDFRetrieval.score_document`:
`math.log((N + 1) / (df + 1)) + 1`. -/
noncomputable def tfidfIdf (idx : InvIndex) (t : String) : ℝ :=
  Real.log (((idx.totalDocs : ℝ) + 1) / ((idx.getDocFreq t : ℝ) + 1)) + 1

/-- Per-term weight added by `TFIDFRetrieval.score_document` when `tf > 0`:
`math.log(1 + tf) * idf`. -/
noncomputable def tfidfTermWeight (idf tf : ℝ) : ℝ :=
  Real.log (1 + tf) * idf

/-- Embedding of `TFIDFRetrieval.score_document`: running sum over the query terms,
skipping terms with `df == 0` and documents with `tf == 0`. -/
noncomputable def tfidfScore (idx : InvIndex) (queryTerms : List String)
    (docId : Nat) : ℝ :=
  queryTerms.foldl
    (fun score term =>
      if idx.getDocFreq term = 0 then score
      else if 0 < getTf (idx.getPostings term) docId then
        score + tfidfTermWeight (tfidfIdf idx term)
            (getTf (idx.getPostings term) docId : ℝ)
      else score)
    0

/-- IDF of `BM25Retrieval.score_document`:
`math.log((N - df + 0.5) / (df + 0.5) + 1)`. -/
noncomputable def bm25Idf (idx : InvIndex) (t : String) : ℝ :=
  Real.log (((idx.totalDocs : ℝ) - (idx.getDocFreq t : ℝ) + 0.5) /
      ((idx.getDocFreq t : ℝ) + 0.5) + 1)

/-- Embedding of `doc_len = self.index.doc_lengths.get(doc_id, avgdl)`. -/
noncomputable def docLenOf (idx : InvIndex) (docId : Nat) : ℝ :=
  match idx.docLengths docId with
  | some n => (n : ℝ)
  | none => (idx.avgDocLength : ℝ)

/-- Per-term weight added by `BM25Retrieval.score_document` when `tf > 0`:
`idf * (tf * (k1 + 1) / (tf + k1 * (1 - b + b * (doc_len / avgdl))))`. -/
noncomputable def bm25TermWeight (idf k1 b docLen avgdl tf : ℝ) : ℝ :=
  idf * (tf * (k1 + 1) / (tf + k1 * (1 - b + b * (docLen / avgdl))))

/-- Embedding of `BM25Retrieval.score_document` with construction parameters `k1`, `b`
(defaults `k1 = 1.5`, `b = 0.75`). -/
noncomputable def bm25Score (idx : InvIndex) (k1 b : ℝ) (queryTerms : List String)
    (docId : Nat) : ℝ :=
  queryTerms.foldl
    (fun score term =>
      if idx.getDocFreq term = 0 then score
      else if 0 < getTf (idx.getPostings term) docId then
        score + bm25TermWeight (bm25Idf idx term) k1 b (docLenOf idx docId)
            (idx.avgDocLength : ℝ) (getTf (idx.getPostings term) docId : ℝ)
      else score)
    0

/-- Search-history record of `CLIRSystem.search`; the wall-clock fields
(latency, timestamp) and the metadata echo of each result are outside the
model. -/
structure SearchRecord where
  query : String
  translatedQuery : Option String
  queryLanguage : String
  method : String
  numResults : Nat
  results : List (Nat × ℝ)

/-- State of `CLIRSystem` after `scrape_and_index`: a document batch, the
optional translation capability (a call either yields a translated text or
raises, modelled by `Except`), and the append-only search history.  The
index below is always the one built from `documents`, and both retrieval
models are registered. -/
structure CLIRState where
  documents : List Doc
  translator : Option (String → String → String → Except String String)
  searchHistory : List SearchRecord

/-- Index of the system: `build_index` applied to the current documents. -/
def CLIRState.index (s : CLIRState) : InvIndex := buildIndex s.documents

/-- Embedding of `CLIRSystem.translate_query`: no translator, or a raising translation
call, falls back to the original query text. -/
def translateQuery
    (translator : Option (String → String → String → Except String String))
    (query sourceLang targetLang : String) : String :=
  match translator with
  | none => query
  | some f =>
    match f query sourceLang targetLang with
    | Except.ok t => t
    | Except.error _ => query

/-- Working query of `CLIRSystem.search`: translated when
`query_lang` differs from `en`, the original text otherwise. -/
def workingQuery (s : CLIRState) (query queryLang : String) : String :=
  if queryLang ≠ "en" then translateQuery s.translator query queryLang "en"
  else query

/-- Embedding of the model lookup `self.retrieval_models.get(method, default)`:
the registry holds exactly `tfidf` and `bm25` (built with defaults), every
other key falls back to `bm25`. -/
noncomputable def scoreOf (idx : InvIndex) (method : String) :
    List String → Nat → ℝ :=
  if method = "tfidf" then tfidfScore idx else bm25Score idx 1.5 0.75

/-- Stable descending insertion by score: the new pair goes in front of the
first already-placed pair whose score is `≤` its own, i.e. after every pair
with a strictly larger score and before the ties to its right. -/
noncomputable def insertDesc (p : Nat × ℝ) : List (Nat × ℝ) → List (Nat × ℝ)
  | [] => [p]
  | q :: rest => if q.2 ≤ p.2 then p :: q :: rest else q :: insertDesc p rest

/-- Embedding of `scores.sort(key=lambda x: x[1], reverse=True)`: Python's sort is a
stable descending sort by score, and every stable sort of the same list
under the same key yields the same output; it is modelled by stable
insertion sort (rightmost element inserted first). -/
noncomputable def sortDesc (l : List (Nat × ℝ)) : List (Nat × ℝ) :=
  l.foldr insertDesc []

/-- Scoring loop of `CLIRSystem.search`: score every document id in
`range(len(self.documents))` and retain the pairs with positive score. -/
noncomputable def scoredCandidates (s : CLIRState) (queryTerms : List String)
    (method : String) : List (Nat × ℝ) :=
  ((List.range s.documents.length).map
      (fun d => (d, scoreOf s.index method queryTerms d))).filter
    (fun p => decide (0 < p.2))

/-- Embedding of `CLIRSystem.search`: translate if needed, tokenize, score, keep positive
scores, sort descending, truncate to `top_k`, and build the history record.
Returns the result list (document id, score) and the record appended to the
history. -/
noncomputable def CLIRState.search (s : CLIRState) (query method : String)
    (topK : Nat) (queryLang : String) : List (Nat × ℝ) × SearchRecord :=
  let working := workingQuery s query queryLang
  let results := (sortDesc (scoredCandidates s (tokenize working) method)).take topK
  (results,
    { query := query
      translatedQuery := if working ≠ query then some working else none
      queryLanguage := queryLang
      method := method
      numResults := results.length
      results := results })

/-- State after one `CLIRSystem.search` call: the record is appended to the
search history (`self.search_history.append(search_record)`). -/
noncomputable def CLIRState.searchNext (s : CLIRState) (query method : String)
    (topK : Nat) (queryLang : String) : CLIRState :=
  { s with searchHistory :=
      s.searchHistory ++ [(s.search query method topK queryLang).2] }

/-- Contribution of one query term to `TFIDFRetrieval.score_document`. -/
noncomputable def tfidfContrib (idx : InvIndex) (docId : Nat) (t : String) : ℝ :=
  if idx.getDocFreq t = 0 then 0
  else if 0 < getTf (idx.getPostings t) docId then
    tfidfTermWeight (tfidfIdf idx t) (getTf (idx.getPostings t) docId : ℝ)
  else 0

/-- Contribution of one query term to `BM25Retrieval.score_document`. -/
noncomputable def bm25Contrib (idx : InvIndex) (k1 b : ℝ) (docId : Nat)
    (t : String) : ℝ :=
  if idx.getDocFreq t = 0 then 0
  else if 0 < getTf (idx.getPostings t) docId then
    bm25TermWeight (bm25Idf idx t) k1 b (docLenOf idx docId)
      (idx.avgDocLength : ℝ) (getTf (idx.getPostings t) docId : ℝ)
  else 0

/-- Ranking order of the sorted result list: strictly descending score,
ties broken by strictly ascending document id. -/
def rankOrd (a b : Nat × ℝ) : Prop :=
  b.2 < a.2 ∨ (a.2 = b.2 ∧ a.1 < b.1)

/-- Scenario A corpus: three documents with bodies `"cat dog"`,
`"cat cat mouse"`, `"dog mouse mouse"`, ids `0`, `1`, `2`. -/
def docs8 : List Doc :=
  [⟨"", "cat dog"⟩, ⟨"", "cat cat mouse"⟩, ⟨"", "dog mouse mouse"⟩]

/-- A concrete system state over `docs8` with no translation capability. -/
def sys8 : CLIRState := ⟨docs8, none, []⟩


/-! Infrastructure lemmas about the built index. -/

theorem getTf_eq_zero_of_forall_ne (l : List (Nat × Nat)) (d : Nat)
    (h : ∀ p ∈ l, p.1 ≠ d) : getTf l d = 0 := by
  induction l with
  | nil => rfl
  | cons p rest ih =>
    simp only [getTf]
    rw [if_neg (h p (List.mem_cons_self p rest))]
    exact ih fun q hq => h q (List.mem_cons_of_mem p hq)

theorem getTf_eq_of_mem (l : List (Nat × Nat)) (d v : Nat)
    (hmem : (d, v) ∈ l) (huniq : ∀ p ∈ l, p.1 = d → p.2 = v) :
    getTf l d = v := by
  induction l with
  | nil => simp at hmem
  | cons p rest ih =>
    simp only [getTf]
    by_cases hp : p.1 = d
    · rw [if_pos hp]
      exact huniq p (List.mem_cons_self p rest) hp
    · rw [if_neg hp]
      rcases List.mem_cons.mp hmem with h | h
      · cases h; exact absurd rfl hp
      · exact ih h fun q hq hqd => huniq q (List.mem_cons_of_mem p hq) hqd

theorem mem_postings_iff (docs : List Doc) (t : String) (p : Nat × Nat) :
    p ∈ (buildIndex docs).postings t ↔
      p.1 < docs.length ∧ 0 < tfIn docs t p.1 ∧ p.2 = tfIn docs t p.1 := by
  obtain ⟨d, v⟩ := p
  simp only [buildIndex, List.mem_filterMap, List.mem_range]
  constructor
  · rintro ⟨a, ha, hp⟩
    by_cases h : 0 < tfIn docs t a
    · rw [if_pos h] at hp
      injection hp with hp
      injection hp with h1 h2
      subst h1; subst h2
      exact ⟨ha, h, rfl⟩
    · rw [if_neg h] at hp
      cases hp
  · rintro ⟨hd, hpos, hv⟩
    exact ⟨d, hd, by rw [if_pos hpos, hv]⟩

theorem tfIn_eq_zero_of_ge (docs : List Doc) (t : String) (d : Nat)
    (h : docs.length ≤ d) : tfIn docs t d = 0 := by
  simp [tfIn, List.getElem?_eq_none h]

/-- The posting-list scan of the scoring loops recovers exactly the term
frequency of the document in the batch. -/
theorem getTf_postings (docs : List Doc) (t : String) (d : Nat) :
    getTf ((buildIndex docs).postings t) d = tfIn docs t d := by
  by_cases hd : d < docs.length
  · by_cases hpos : 0 < tfIn docs t d
    · refine getTf_eq_of_mem _ _ _ ?_ ?_
      · exact (mem_postings_iff docs t (d, tfIn docs t d)).mpr ⟨hd, hpos, rfl⟩
      · intro p hp hpd
        obtain ⟨_, _, hv⟩ := (mem_postings_iff docs t p).mp hp
        rw [hv, hpd]
    · rw [Nat.eq_zero_of_not_pos hpos]
      refine getTf_eq_zero_of_forall_ne _ _ fun p hp hpd => ?_
      obtain ⟨_, hpos', _⟩ := (mem_postings_iff docs t p).mp hp
      rw [hpd] at hpos'
      exact hpos hpos'
  · rw [tfIn_eq_zero_of_ge docs t d (Nat.le_of_not_lt hd)]
    refine getTf_eq_zero_of_forall_ne _ _ fun p hp hpd => ?_
    obtain ⟨hlt, _, _⟩ := (mem_postings_iff docs t p).mp hp
    rw [hpd] at hlt
    exact hd hlt

theorem getDocFreq_le_totalDocs (docs : List Doc) (t : String) :
    (buildIndex docs).getDocFreq t ≤ (buildIndex docs).totalDocs := by
  have h := List.length_filterMap_le
    (fun d => if 0 < tfIn docs t d then some (d, tfIn docs t d) else none)
    (List.range docs.length)
  simpa [InvIndex.getDocFreq, buildIndex] using h

theorem avgDocLength_nonneg (docs : List Doc) :
    0 ≤ (buildIndex docs).avgDocLength := by
  simp only [buildIndex]
  split
  · exact div_nonneg (Nat.cast_nonneg _) (Nat.cast_nonneg _)
  · exact le_refl 0

/-- If the recorded average length is zero, no posting exists: either the
batch is empty or every document tokenizes to the empty sequence, so every
document frequency is zero. -/
theorem postings_eq_nil_of_avg_eq_zero (docs : List Doc)
    (h : (buildIndex docs).avgDocLength = 0) (t : String) :
    (buildIndex docs).postings t = [] := by
  have hzero : ∀ d, tfIn docs t d = 0 := by
    intro d
    by_cases hd : d < docs.length
    · have hN : 0 < docs.length := Nat.lt_of_le_of_lt (Nat.zero_le d) hd
      simp only [buildIndex, if_pos hN] at h
      have hsum : ((docs.map (fun doc => (docTokens doc).length)).sum : ℚ) = 0 := by
        have hne : (docs.length : ℚ) ≠ 0 := by
          exact_mod_cast Nat.pos_iff_ne_zero.mp hN
        exact (div_eq_zero_iff.mp h).resolve_right hne
      have hsum' : (docs.map (fun doc => (docTokens doc).length)).sum = 0 := by
        exact_mod_cast hsum
      have hall := List.sum_eq_zero_iff.mp hsum'
      have hdoc : ∀ doc ∈ docs, docTokens doc = [] := by
        intro doc hdoc
        exact List.length_eq_zero.mp
          (hall _ (List.mem_map.mpr ⟨doc, hdoc, rfl⟩))
      simp only [tfIn]
      rcases hmem : docs[d]? with _ | doc
      · simp
      · rw [Option.map_some', Option.getD_some, hdoc doc (List.getElem?_mem hmem)]
        simp
    · exact tfIn_eq_zero_of_ge docs t d (Nat.le_of_not_lt hd)
  rcases hp : (buildIndex docs).postings t with _ | ⟨p, rest⟩
  · rfl
  · exfalso
    have hmem : p ∈ (buildIndex docs).postings t := by
      rw [hp]; exact List.mem_cons_self p rest
    obtain ⟨_, hpos, _⟩ := (mem_postings_iff docs t p).mp hmem
    rw [hzero p.1] at hpos
    exact Nat.lt_irrefl 0 hpos

/-- A term with a nonempty posting list occurs in some document, hence is in
the vocabulary. -/
theorem mem_vocab_of_tfIn_pos (docs : List Doc) (t : String) (d : Nat)
    (h : 0 < tfIn docs t d) : t ∈ (buildIndex docs).vocab := by
  simp only [tfIn] at h
  rcases hmem : docs[d]? with _ | doc
  · rw [hmem] at h; simp at h
  · rw [hmem] at h
    rw [Option.map_some', Option.getD_some] at h
    have ht : t ∈ docTokens doc := List.count_pos_iff.mp h
    simp only [buildIndex, List.mem_toFinset, List.mem_flatten]
    exact ⟨docTokens doc, List.mem_map.mpr ⟨doc, List.getElem?_mem hmem, rfl⟩, ht⟩

theorem getDocFreq_eq_zero_of_not_mem_vocab (docs : List Doc) (t : String)
    (h : t ∉ (buildIndex docs).vocab) : (buildIndex docs).getDocFreq t = 0 := by
  rw [InvIndex.getDocFreq, List.length_eq_zero]
  rcases hp : (buildIndex docs).postings t with _ | ⟨p, rest⟩
  · rfl
  · exfalso
    have hmem : p ∈ (buildIndex docs).postings t := by
      rw [hp]; exact List.mem_cons_self p rest
    obtain ⟨_, hpos, _⟩ := (mem_postings_iff docs t p).mp hmem
    exact h (mem_vocab_of_tfIn_pos docs t p.1 hpos)

/-! Score decomposition: both scoring loops are running sums of a per-term
contribution, so each score is the sum of its per-term contributions. -/

theorem foldl_add_shift {α : Type} (f : ℝ → α → ℝ) (g : α → ℝ)
    (hf : ∀ s t, f s t = s + g t) :
    ∀ (l : List α) (s0 : ℝ), l.foldl f s0 = s0 + (l.map g).sum := by
  intro l
  induction l with
  | nil => intro s0; simp
  | cons t ts ih =>
    intro s0
    rw [List.foldl_cons, ih, hf, List.map_cons, List.sum_cons, add_assoc]

theorem tfidfScore_eq_sum (idx : InvIndex) (q : List String) (d : Nat) :
    tfidfScore idx q d = (q.map (tfidfContrib idx d)).sum := by
  have hf : ∀ (s : ℝ) (t : String),
      (if idx.getDocFreq t = 0 then s
       else if 0 < getTf (idx.getPostings t) d then
         s + tfidfTermWeight (tfidfIdf idx t) (getTf (idx.getPostings t) d : ℝ)
       else s) = s + tfidfContrib idx d t := by
    intro s t
    rw [tfidfContrib]
    split
    · rw [add_zero]
    · split
      · rfl
      · rw [add_zero]
  rw [tfidfScore, foldl_add_shift _ (tfidfContrib idx d) hf q 0, zero_add]

theorem bm25Score_eq_sum (idx : InvIndex) (k1 b : ℝ) (q : List String) (d : Nat) :
    bm25Score idx k1 b q d = (q.map (bm25Contrib idx k1 b d)).sum := by
  have hf : ∀ (s : ℝ) (t : String),
      (if idx.getDocFreq t = 0 then s
       else if 0 < getTf (idx.getPostings t) d then
         s + bm25TermWeight (bm25Idf idx t) k1 b (docLenOf idx d)
             (idx.avgDocLength : ℝ) (getTf (idx.getPostings t) d : ℝ)
       else s) = s + bm25Contrib idx k1 b d t := by
    intro s t
    rw [bm25Contrib]
    split
    · rw [add_zero]
    · split
      · rfl
      · rw [add_zero]
  rw [bm25Score, foldl_add_shift _ (bm25Contrib idx k1 b d) hf q 0, zero_add]

/-! Nonnegativity of the per-term pieces for a built index. -/

theorem tfidfIdf_nonneg (docs : List Doc) (t : String) :
    0 ≤ tfidfIdf (buildIndex docs) t := by
  have hdf := getDocFreq_le_totalDocs docs t
  have hlog : 0 ≤ Real.log ((((buildIndex docs).totalDocs : ℝ) + 1) /
      (((buildIndex docs).getDocFreq t : ℝ) + 1)) := by
    apply Real.log_nonneg
    rw [le_div_iff₀ (by positivity)]
    rw [one_mul]
    have : ((buildIndex docs).getDocFreq t : ℝ) ≤ ((buildIndex docs).totalDocs : ℝ) := by
      exact_mod_cast hdf
    linarith
  rw [tfidfIdf]
  linarith

theorem bm25Idf_nonneg (docs : List Doc) (t : String) :
    0 ≤ bm25Idf (buildIndex docs) t := by
  have hdf := getDocFreq_le_totalDocs docs t
  have hdf' : ((buildIndex docs).getDocFreq t : ℝ) ≤ ((buildIndex docs).totalDocs : ℝ) := by
    exact_mod_cast hdf
  apply Real.log_nonneg
  have hnum : (0 : ℝ) ≤ ((buildIndex docs).totalDocs : ℝ) -
      ((buildIndex docs).getDocFreq t : ℝ) + 0.5 := by linarith
  have hden : (0 : ℝ) < ((buildIndex docs).getDocFreq t : ℝ) + 0.5 := by positivity
  have := div_nonneg hnum (le_of_lt hden)
  linarith

theorem docLenOf_nonneg (docs : List Doc) (d : Nat) :
    0 ≤ docLenOf (buildIndex docs) d := by
  rw [docLenOf]
  rcases (buildIndex docs).docLengths d with _ | n
  · show (0 : ℝ) ≤ ((buildIndex docs).avgDocLength : ℝ)
    exact_mod_cast avgDocLength_nonneg docs
  · show (0 : ℝ) ≤ (n : ℝ)
    exact Nat.cast_nonneg n

theorem bm25TermWeight_nonneg (docs : List Doc) (t : String) (d : Nat) (tf : ℝ)
    (htf : 0 ≤ tf) :
    0 ≤ bm25TermWeight (bm25Idf (buildIndex docs) t) 1.5 0.75
        (docLenOf (buildIndex docs) d) ((buildIndex docs).avgDocLength : ℝ) tf := by
  rw [bm25TermWeight]
  apply mul_nonneg (bm25Idf_nonneg docs t)
  have hratio : (0 : ℝ) ≤ docLenOf (buildIndex docs) d /
      ((buildIndex docs).avgDocLength : ℝ) := by
    apply div_nonneg (docLenOf_nonneg docs d)
    exact_mod_cast avgDocLength_nonneg docs
  apply div_nonneg
  · nlinarith
  · nlinarith

theorem tfidfContrib_nonneg (docs : List Doc) (d : Nat) (t : String) :
    0 ≤ tfidfContrib (buildIndex docs) d t := by
  rw [tfidfContrib]
  split
  · exact le_refl 0
  · split
    · rename_i htf
      rw [tfidfTermWeight]
      apply mul_nonneg _ (tfidfIdf_nonneg docs t)
      apply Real.log_nonneg
      have : (1 : ℝ) ≤ (getTf ((buildIndex docs).getPostings t) d : ℝ) := by
        exact_mod_cast htf
      linarith
    · exact le_refl 0

theorem bm25Contrib_nonneg (docs : List Doc) (d : Nat) (t : String) :
    0 ≤ bm25Contrib (buildIndex docs) 1.5 0.75 d t := by
  rw [bm25Contrib]
  split
  · exact le_refl 0
  · split
    · exact bm25TermWeight_nonneg docs t d _ (Nat.cast_nonneg _)
    · exact le_refl 0

/-- Sum of a per-document quantity over ids `0 .. len-1` equals the sum of
the mapped list. -/
theorem sum_range_getD (docs : List Doc) (f : Doc → Nat) :
    (∑ d ∈ Finset.range docs.length, (((docs[d]?).map f).getD 0 : ℚ)) =
      (((docs.map f).sum : ℚ)) := by
  induction docs with
  | nil => simp
  | cons x xs ih =>
    rw [List.length_cons, Finset.sum_range_succ']
    simp only [List.getElem?_cons_succ, List.getElem?_cons_zero,
      Option.map_some', Option.getD_some]
    rw [ih, List.map_cons, List.sum_cons]
    push_cast
    ring

theorem count_toMultiset (l : List String) (t : String) :
    Multiset.count t (l : Multiset String) = l.count t := by
  simp [Multiset.coe_count]

/-- C2: after `build_index(documents)`, `avg_doc_length` equals the sum of
the recorded `doc_lengths` divided by `total_docs` when `total_docs > 0` and
`0` otherwise; for every term `get_doc_freq(term)` is the length of
`get_postings(term)`; and for every document the sum over all posting lists
of the term frequencies stored for that document equals its recorded
`doc_length`, the token count of `title + " " + body`. -/
theorem buildIndex_invariants (docs : List Doc) :
    ((buildIndex docs).avgDocLength =
      if 0 < (buildIndex docs).totalDocs then
        (∑ d ∈ Finset.range (buildIndex docs).totalDocs,
            ((((buildIndex docs).docLengths d).getD 0 : ℚ))) /
          ((buildIndex docs).totalDocs : ℚ)
      else 0) ∧
    (∀ t, (buildIndex docs).getDocFreq t =
      ((buildIndex docs).getPostings t).length) ∧
    (∀ d doc, docs[d]? = some doc →
      (buildIndex docs).docLengths d = some ((docTokens doc).length) ∧
      ∑ t ∈ (buildIndex docs).vocab, getTf ((buildIndex docs).postings t) d
        = (docTokens doc).length) := by
  refine ⟨?_, fun t => rfl, ?_⟩
  · have hsum := sum_range_getD docs (fun doc => (docTokens doc).length)
    show (buildIndex docs).avgDocLength = _
    simp only [buildIndex] at hsum ⊢
    split
    · rw [hsum]
    · rfl
  · intro d doc hd
    have hlen : (buildIndex docs).docLengths d = some ((docTokens doc).length) := by
      show ((docs[d]?).map fun doc => (docTokens doc).length) = _
      rw [hd, Option.map_some']
    refine ⟨hlen, ?_⟩
    have hsub : ∀ a ∈ ((docTokens doc) : Multiset String),
        a ∈ (buildIndex docs).vocab := by
      intro a ha
      rw [Multiset.mem_coe] at ha
      apply mem_vocab_of_tfIn_pos docs a d
      simp only [tfIn, hd, Option.map_some', Option.getD_some]
      exact List.count_pos_iff.mpr ha
    calc ∑ t ∈ (buildIndex docs).vocab, getTf ((buildIndex docs).postings t) d
        = ∑ t ∈ (buildIndex docs).vocab,
            Multiset.count t ((docTokens doc) : Multiset String) := by
          refine Finset.sum_congr rfl fun t _ => ?_
          rw [getTf_postings, count_toMultiset]
          simp only [tfIn, hd, Option.map_some', Option.getD_some]
      _ = Multiset.card ((docTokens doc) : Multiset String) :=
          Multiset.sum_count_eq_card hsub
      _ = (docTokens doc).length := by simp

/-- Witness for C2 on the one-document batch `["cat dog"]`: document `0`
exists, its recorded length is its token count, and the posting-list term
frequencies for document `0` sum to it. -/
theorem buildIndex_invariants_witness :
    (([(⟨"", "cat dog"⟩ : Doc)])[0]? = some (⟨"", "cat dog"⟩ : Doc)) ∧
    ((buildIndex [(⟨"", "cat dog"⟩ : Doc)]).docLengths 0 =
      some ((docTokens (⟨"", "cat dog"⟩ : Doc)).length) ∧
    ∑ t ∈ (buildIndex [(⟨"", "cat dog"⟩ : Doc)]).vocab,
        getTf ((buildIndex [(⟨"", "cat dog"⟩ : Doc)]).postings t) 0
      = (docTokens (⟨"", "cat dog"⟩ : Doc)).length) :=
  ⟨rfl, (buildIndex_invariants [(⟨"", "cat dog"⟩ : Doc)]).2.2 0
    (⟨"", "cat dog"⟩ : Doc) rfl⟩

/-- C3: on a built index, `TFIDFRetrieval.score_document` returns the sum
over the query terms, counting only terms with positive document frequency
and positive term frequency in the document, of
`ln(1+tf) * (ln((N+1)/(df+1)) + 1)`; and a term outside the vocabulary
contributes `0`. -/
theorem tfidfScore_formula (docs : List Doc) (q : List String) (d : Nat) :
    (tfidfScore (buildIndex docs) q d =
      (q.map (fun t =>
        if 0 < (buildIndex docs).getDocFreq t ∧
            0 < getTf ((buildIndex docs).getPostings t) d then
          Real.log (1 + (getTf ((buildIndex docs).getPostings t) d : ℝ)) *
            (Real.log ((((buildIndex docs).totalDocs : ℝ) + 1) /
                (((buildIndex docs).getDocFreq t : ℝ) + 1)) + 1)
        else 0)).sum) ∧
    ∀ t, t ∉ (buildIndex docs).vocab →
      (if 0 < (buildIndex docs).getDocFreq t ∧
          0 < getTf ((buildIndex docs).getPostings t) d then
        Real.log (1 + (getTf ((buildIndex docs).getPostings t) d : ℝ)) *
          (Real.log ((((buildIndex docs).totalDocs : ℝ) + 1) /
              (((buildIndex docs).getDocFreq t : ℝ) + 1)) + 1)
      else 0) = 0 := by
  constructor
  · rw [tfidfScore_eq_sum]
    congr 1
    congr 1
    funext t
    rw [tfidfContrib]
    by_cases hdf : (buildIndex docs).getDocFreq t = 0
    · rw [if_pos hdf, if_neg]
      rintro ⟨hpos, _⟩
      rw [hdf] at hpos
      exact Nat.lt_irrefl 0 hpos
    · rw [if_neg hdf]
      have hdfpos : 0 < (buildIndex docs).getDocFreq t := Nat.pos_of_ne_zero hdf
      by_cases htf : 0 < getTf ((buildIndex docs).getPostings t) d
      · rw [if_pos htf, if_pos ⟨hdfpos, htf⟩, tfidfTermWeight, tfidfIdf]
      · rw [if_neg htf, if_neg]
        rintro ⟨_, h⟩
        exact htf h
  · intro t ht
    rw [if_neg]
    rintro ⟨hpos, _⟩
    rw [getDocFreq_eq_zero_of_not_mem_vocab docs t ht] at hpos
    exact Nat.lt_irrefl 0 hpos

/-- Witness for C3 on the batch `["cat dog"]`, query `["cat", "zzz"]`,
document `0`: the out-of-vocabulary term `"zzz"` contributes `0`. -/
theorem tfidfScore_formula_witness :
    ("zzz" ∉ (buildIndex [(⟨"", "cat dog"⟩ : Doc)]).vocab) ∧
    (if 0 < (buildIndex [(⟨"", "cat dog"⟩ : Doc)]).getDocFreq "zzz" ∧
        0 < getTf ((buildIndex [(⟨"", "cat dog"⟩ : Doc)]).getPostings "zzz") 0 then
      Real.log (1 +
          (getTf ((buildIndex [(⟨"", "cat dog"⟩ : Doc)]).getPostings "zzz") 0 : ℝ)) *
        (Real.log ((((buildIndex [(⟨"", "cat dog"⟩ : Doc)]).totalDocs : ℝ) + 1) /
            (((buildIndex [(⟨"", "cat dog"⟩ : Doc)]).getDocFreq "zzz" : ℝ) + 1)) + 1)
    else 0) = 0 :=
  ⟨by decide,
    (tfidfScore_formula [(⟨"", "cat dog"⟩ : Doc)] ["cat", "zzz"] 0).2 "zzz"
      (by decide)⟩

/-- C4: on a built index whose `avg_doc_length` is `0` (empty batch, or
every document tokenizing to no tokens) every posting list is empty, so for
every query and document id the `df == 0` guard skips each term before the
division by `avgdl` is reached, and `BM25Retrieval.score_document`
returns `0`. -/
theorem bm25Score_avgdl_zero (docs : List Doc)
    (h : (buildIndex docs).avgDocLength = 0) :
    (∀ t, (buildIndex docs).postings t = []) ∧
    ∀ (k1 b : ℝ) (q : List String) (d : Nat),
      bm25Score (buildIndex docs) k1 b q d = 0 := by
  refine ⟨postings_eq_nil_of_avg_eq_zero docs h, fun k1 b q d => ?_⟩
  rw [bm25Score_eq_sum]
  apply List.sum_eq_zero
  intro x hx
  obtain ⟨t, _, rfl⟩ := List.mem_map.mp hx
  rw [bm25Contrib, if_pos]
  show ((buildIndex docs).postings t).length = 0
  rw [postings_eq_nil_of_avg_eq_zero docs h t]
  rfl

/-- Witness for C4: the empty batch builds an index with
`avg_doc_length = 0`, and BM25 with default parameters scores `0` on it. -/
theorem bm25Score_avgdl_zero_witness :
    ((buildIndex ([] : List Doc)).avgDocLength = 0) ∧
    ((∀ t, (buildIndex ([] : List Doc)).postings t = []) ∧
    ∀ (k1 b : ℝ) (q : List String) (d : Nat),
      bm25Score (buildIndex ([] : List Doc)) k1 b q d = 0) :=
  ⟨by decide, bm25Score_avgdl_zero ([] : List Doc) (by decide)⟩

/-- C5: on a built index both scores are nonnegative, and both are exactly
`0` whenever the document has zero term frequency for every query term
(BM25 taken with its default parameters `k1 = 1.5`, `b = 0.75`). -/
theorem scores_nonneg_and_zero (docs : List Doc) (q : List String) (d : Nat) :
    0 ≤ tfidfScore (buildIndex docs) q d ∧
    0 ≤ bm25Score (buildIndex docs) 1.5 0.75 q d ∧
    ((∀ t ∈ q, getTf ((buildIndex docs).getPostings t) d = 0) →
      tfidfScore (buildIndex docs) q d = 0 ∧
      bm25Score (buildIndex docs) 1.5 0.75 q d = 0) := by
  refine ⟨?_, ?_, ?_⟩
  · rw [tfidfScore_eq_sum]
    apply List.sum_nonneg
    intro x hx
    obtain ⟨t, _, rfl⟩ := List.mem_map.mp hx
    exact tfidfContrib_nonneg docs d t
  · rw [bm25Score_eq_sum]
    apply List.sum_nonneg
    intro x hx
    obtain ⟨t, _, rfl⟩ := List.mem_map.mp hx
    exact bm25Contrib_nonneg docs d t
  · intro hzero
    constructor
    · rw [tfidfScore_eq_sum]
      apply List.sum_eq_zero
      intro x hx
      obtain ⟨t, ht, rfl⟩ := List.mem_map.mp hx
      rw [tfidfContrib]
      split
      · rfl
      · rw [if_neg]
        rw [hzero t ht]
        exact Nat.lt_irrefl 0
    · rw [bm25Score_eq_sum]
      apply List.sum_eq_zero
      intro x hx
      obtain ⟨t, ht, rfl⟩ := List.mem_map.mp hx
      rw [bm25Contrib]
      split
      · rfl
      · rw [if_neg]
        rw [hzero t ht]
        exact Nat.lt_irrefl 0

/-- Witness for C5 on the three-document corpus, query `["cat"]` and
document `2`, which has zero term frequency for every query term. -/
theorem scores_nonneg_and_zero_witness :
    (∀ t ∈ ["cat"],
      getTf ((buildIndex [(⟨"", "cat dog"⟩ : Doc), (⟨"", "cat cat mouse"⟩ : Doc),
          (⟨"", "dog mouse mouse"⟩ : Doc)]).getPostings t) 2 = 0) ∧
    (tfidfScore (buildIndex [(⟨"", "cat dog"⟩ : Doc), (⟨"", "cat cat mouse"⟩ : Doc),
        (⟨"", "dog mouse mouse"⟩ : Doc)]) ["cat"] 2 = 0 ∧
      bm25Score (buildIndex [(⟨"", "cat dog"⟩ : Doc), (⟨"", "cat cat mouse"⟩ : Doc),
        (⟨"", "dog mouse mouse"⟩ : Doc)]) 1.5 0.75 ["cat"] 2 = 0) :=
  ⟨by decide,
    (scores_nonneg_and_zero [(⟨"", "cat dog"⟩ : Doc), (⟨"", "cat cat mouse"⟩ : Doc),
      (⟨"", "dog mouse mouse"⟩ : Doc)] ["cat"] 2).2.2 (by decide)⟩

/-- Monotonicity of the saturating fraction `t / (t + C)` for `C ≥ 0`. -/
theorem div_add_mono (C t1 t2 : ℝ) (hC : 0 ≤ C) (h0 : 0 ≤ t1) (h12 : t1 ≤ t2) :
    t1 / (t1 + C) ≤ t2 / (t2 + C) := by
  rcases eq_or_lt_of_le (by linarith : (0 : ℝ) ≤ t1 + C) with h | h
  · have ht1 : t1 = 0 := by linarith
    have hC0 : C = 0 := by linarith
    rw [ht1, hC0]
    simpa using div_nonneg (by linarith : (0 : ℝ) ≤ t2) (by linarith : (0 : ℝ) ≤ t2 + 0)
  · have h2 : (0 : ℝ) < t2 + C := by linarith
    rw [div_le_div_iff₀ h h2]
    nlinarith

/-- C7: with the index state fixed (hence `idf`, `doc_len`, `avgdl` fixed),
the per-term contribution of each scoring function is non-decreasing in the
document term frequency over `tf ≥ 0`: `ln(1+tf) * idf` for TF-IDF and
`idf * tf*(k1+1) / (tf + k1*(1 - b + b*(doc_len/avgdl)))` for BM25 with
`k1 = 1.5`, `b = 0.75`. -/
theorem termWeights_monotone (docs : List Doc) (t : String) (d : Nat)
    (t1 t2 : ℝ) (h0 : 0 ≤ t1) (h12 : t1 ≤ t2) :
    tfidfTermWeight (tfidfIdf (buildIndex docs) t) t1 ≤
      tfidfTermWeight (tfidfIdf (buildIndex docs) t) t2 ∧
    bm25TermWeight (bm25Idf (buildIndex docs) t) 1.5 0.75
        (docLenOf (buildIndex docs) d) ((buildIndex docs).avgDocLength : ℝ) t1 ≤
      bm25TermWeight (bm25Idf (buildIndex docs) t) 1.5 0.75
        (docLenOf (buildIndex docs) d) ((buildIndex docs).avgDocLength : ℝ) t2 := by
  constructor
  · rw [tfidfTermWeight, tfidfTermWeight]
    apply mul_le_mul_of_nonneg_right _ (tfidfIdf_nonneg docs t)
    exact Real.log_le_log (by linarith) (by linarith)
  · rw [bm25TermWeight, bm25TermWeight]
    apply mul_le_mul_of_nonneg_left _ (bm25Idf_nonneg docs t)
    have hR : 0 ≤ docLenOf (buildIndex docs) d /
        ((buildIndex docs).avgDocLength : ℝ) := by
      apply div_nonneg (docLenOf_nonneg docs d)
      exact_mod_cast avgDocLength_nonneg docs
    have hC : 0 ≤ (1.5 : ℝ) * (1 - 0.75 + 0.75 *
        (docLenOf (buildIndex docs) d / ((buildIndex docs).avgDocLength : ℝ))) := by
      nlinarith
    have key := div_add_mono _ t1 t2 hC h0 h12
    have e1 : ∀ s : ℝ, s * ((1.5 : ℝ) + 1) /
        (s + 1.5 * (1 - 0.75 + 0.75 *
          (docLenOf (buildIndex docs) d / ((buildIndex docs).avgDocLength : ℝ)))) =
        (5 / 2) * (s / (s + 1.5 * (1 - 0.75 + 0.75 *
          (docLenOf (buildIndex docs) d / ((buildIndex docs).avgDocLength : ℝ))))) := by
      intro s
      norm_num
      ring
    rw [e1 t1, e1 t2]
    exact mul_le_mul_of_nonneg_left key (by norm_num)

/-- Witness for C7 on the three-document corpus, term `"cat"`, document `0`,
`tf` raised from `1` to `2`. -/
theorem termWeights_monotone_witness :
    ((0 : ℝ) ≤ 1 ∧ (1 : ℝ) ≤ 2) ∧
    (tfidfTermWeight (tfidfIdf (buildIndex [(⟨"", "cat dog"⟩ : Doc),
          (⟨"", "cat cat mouse"⟩ : Doc), (⟨"", "dog mouse mouse"⟩ : Doc)]) "cat") 1 ≤
      tfidfTermWeight (tfidfIdf (buildIndex [(⟨"", "cat dog"⟩ : Doc),
          (⟨"", "cat cat mouse"⟩ : Doc), (⟨"", "dog mouse mouse"⟩ : Doc)]) "cat") 2 ∧
    bm25TermWeight (bm25Idf (buildIndex [(⟨"", "cat dog"⟩ : Doc),
          (⟨"", "cat cat mouse"⟩ : Doc), (⟨"", "dog mouse mouse"⟩ : Doc)]) "cat")
        1.5 0.75
        (docLenOf (buildIndex [(⟨"", "cat dog"⟩ : Doc),
          (⟨"", "cat cat mouse"⟩ : Doc), (⟨"", "dog mouse mouse"⟩ : Doc)]) 0)
        ((buildIndex [(⟨"", "cat dog"⟩ : Doc), (⟨"", "cat cat mouse"⟩ : Doc),
          (⟨"", "dog mouse mouse"⟩ : Doc)]).avgDocLength : ℝ) 1 ≤
      bm25TermWeight (bm25Idf (buildIndex [(⟨"", "cat dog"⟩ : Doc),
          (⟨"", "cat cat mouse"⟩ : Doc), (⟨"", "dog mouse mouse"⟩ : Doc)]) "cat")
        1.5 0.75
        (docLenOf (buildIndex [(⟨"", "cat dog"⟩ : Doc),
          (⟨"", "cat cat mouse"⟩ : Doc), (⟨"", "dog mouse mouse"⟩ : Doc)]) 0)
        ((buildIndex [(⟨"", "cat dog"⟩ : Doc), (⟨"", "cat cat mouse"⟩ : Doc),
          (⟨"", "dog mouse mouse"⟩ : Doc)]).avgDocLength : ℝ) 2) :=
  ⟨⟨by norm_num, by norm_num⟩,
    termWeights_monotone [(⟨"", "cat dog"⟩ : Doc), (⟨"", "cat cat mouse"⟩ : Doc),
      (⟨"", "dog mouse mouse"⟩ : Doc)] "cat" 0 1 2 (by norm_num) (by norm_num)⟩

theorem cleanChar_eq_amended : cleanChar = specCleanAmended := by
  funext c
  simp [cleanChar, specCleanAmended, isWordChar, Bool.or_assoc]

/-- The hand-rolled whitespace split equals `splitOnP` with the empty
segments removed, with the pending-token accumulator made explicit. -/
theorem splitWsAux_splitOnP (l : List Char) : ∀ acc : List Char,
    ∃ s rest, l.splitOnP (fun c => c.isWhitespace) = s :: rest ∧
      splitWsAux acc l =
        ((acc.reverse ++ s) :: rest).filter (fun cs => !cs.isEmpty) := by
  induction l with
  | nil =>
    intro acc
    refine ⟨[], [], List.splitOnP_nil _, ?_⟩
    rcases acc with _ | ⟨a, as⟩
    · rfl
    · have hne : ((a :: as).reverse ++ []).isEmpty = false := by simp
      simp [splitWsAux, List.filter_cons, hne]
  | cons c cs ih =>
    intro acc
    by_cases hw : c.isWhitespace
    · obtain ⟨s', rest', hsp, haux⟩ := ih []
      refine ⟨[], s' :: rest', ?_, ?_⟩
      · rw [List.splitOnP_cons, if_pos hw, hsp]
      · rw [splitWsAux, if_pos hw]
        by_cases hacc : acc.isEmpty
        · rw [if_pos hacc, haux]
          rw [List.isEmpty_iff] at hacc
          subst hacc
          simp [List.filter]
        · rw [if_neg hacc, haux]
          have hne : (!acc.reverse.isEmpty) = true := by
            rcases acc with _ | ⟨a, as⟩
            · exact absurd rfl hacc
            · simp
          simp [List.filter_cons, hne]
    · obtain ⟨s', rest', hsp, haux⟩ := ih (c :: acc)
      refine ⟨c :: s', rest', ?_, ?_⟩
      · rw [List.splitOnP_cons, if_neg (by simp [hw]), hsp]
        rfl
      · rw [splitWsAux, if_neg (by simp [hw]), haux]
        have : (c :: acc).reverse ++ s' = acc.reverse ++ (c :: s') := by
          rw [List.reverse_cons, List.append_assoc]
          rfl
        rw [this]

theorem splitWs_eq_splitOnP (l : List Char) :
    splitWs l =
      (l.splitOnP (fun c => c.isWhitespace)).filter (fun cs => !cs.isEmpty) := by
  obtain ⟨s, rest, hsp, haux⟩ := splitWsAux_splitOnP l []
  rw [splitWs, haux, hsp]
  rfl

/-- C6, counterexample: on `"x_y"` the code keeps the underscore (it is a
`\w` character, untouched by the `[^\w\s]` substitution) and returns the
single token `"x_y"`, while the spec's policy (replace every character that
is not a letter/digit/whitespace by a space) yields `"x y"`, whose tokens
are all of length `≤ 2` and are dropped. -/
theorem tokenize_spec_counterexample :
    tokenize "x_y" = ["x_y"] ∧ tokenizeSpec "x_y" = [] ∧
      tokenize "x_y" ≠ tokenizeSpec "x_y" := by
  refine ⟨by decide, by decide, by decide⟩

/-- C6, amended: `tokenize` lower-cases the text, replaces every character
that is not a letter, digit, underscore, or whitespace with a space, splits
on whitespace and drops tokens of length `≤ 2`; it is a pure function and
the empty string yields the empty sequence. -/
theorem tokenize_matches_amended_spec :
    (∀ s, tokenize s = tokenizeSpecAmended s) ∧ tokenize "" = [] := by
  refine ⟨fun s => ?_, by decide⟩
  rw [tokenize, tokenizeSpecAmended, cleanChar_eq_amended, splitWs_eq_splitOnP]

/-! Lemmas about the stable descending sort of `CLIRSystem.search`. -/

theorem insertDesc_perm (p : Nat × ℝ) (l : List (Nat × ℝ)) :
    (insertDesc p l).Perm (p :: l) := by
  induction l with
  | nil => exact List.Perm.refl _
  | cons q rest ih =>
    rw [insertDesc]
    split
    · exact List.Perm.refl _
    · exact (List.Perm.cons q ih).trans (List.Perm.swap p q rest)

theorem sortDesc_perm (l : List (Nat × ℝ)) : (sortDesc l).Perm l := by
  induction l with
  | nil => exact List.Perm.refl _
  | cons x xs ih =>
    rw [sortDesc, List.foldr_cons]
    exact (insertDesc_perm x _).trans (List.Perm.cons x ih)

theorem pairwise_insertDesc (p : Nat × ℝ) (l : List (Nat × ℝ))
    (h : l.Pairwise rankOrd) (hid : ∀ q ∈ l, p.1 < q.1) :
    (insertDesc p l).Pairwise rankOrd := by
  induction l with
  | nil => simp [insertDesc, List.pairwise_cons]
  | cons q rest ih =>
    rw [List.pairwise_cons] at h
    obtain ⟨hq, hrest⟩ := h
    rw [insertDesc]
    split
    · rename_i hle
      rw [List.pairwise_cons]
      refine ⟨?_, List.pairwise_cons.mpr ⟨hq, hrest⟩⟩
      intro y hy
      have hyle : y.2 ≤ p.2 := by
        rcases List.mem_cons.mp hy with h | h
        · rw [h]; exact hle
        · rcases hq y h with h' | ⟨h', _⟩
          · linarith
          · linarith
      rcases lt_or_eq_of_le hyle with h' | h'
      · exact Or.inl h'
      · exact Or.inr ⟨h'.symm, hid y hy⟩
    · rename_i hlt
      push_neg at hlt
      rw [List.pairwise_cons]
      constructor
      · intro y hy
        rcases List.mem_cons.mp ((insertDesc_perm p rest).mem_iff.mp hy) with h | h
        · rw [h]
          exact Or.inl hlt
        · exact hq y h
      · exact ih hrest fun y hy => hid y (List.mem_cons_of_mem q hy)

theorem sortDesc_pairwise (l : List (Nat × ℝ))
    (h : l.Pairwise (fun a b => a.1 < b.1)) : (sortDesc l).Pairwise rankOrd := by
  induction l with
  | nil => simp [sortDesc]
  | cons x xs ih =>
    rw [List.pairwise_cons] at h
    obtain ⟨hx, hxs⟩ := h
    rw [sortDesc, List.foldr_cons]
    exact pairwise_insertDesc x _ (ih hxs)
      (fun q hq => hx q ((sortDesc_perm xs).mem_iff.mp hq))

theorem scoredCandidates_pairwise (s : CLIRState) (qt : List String)
    (method : String) :
    (scoredCandidates s qt method).Pairwise (fun a b => a.1 < b.1) := by
  apply List.Pairwise.sublist (List.filter_sublist _)
  exact List.Pairwise.map _ (fun a b h => h) (List.pairwise_lt_range _)

theorem mem_scoredCandidates (s : CLIRState) (qt : List String) (method : String)
    (p : Nat × ℝ) :
    p ∈ scoredCandidates s qt method ↔
      p.1 < s.documents.length ∧ p.2 = scoreOf s.index method qt p.1 ∧ 0 < p.2 := by
  obtain ⟨d, x⟩ := p
  simp only [scoredCandidates, List.mem_filter, List.mem_map, List.mem_range]
  constructor
  · rintro ⟨⟨a, ha, heq⟩, hpos⟩
    injection heq with h1 h2
    subst h1
    subst h2
    exact ⟨ha, rfl, of_decide_eq_true hpos⟩
  · rintro ⟨hd, hx, hpos⟩
    refine ⟨⟨d, hd, ?_⟩, decide_eq_true hpos⟩
    rw [hx]

/-- C1: for every system state (the index is the one built from its
documents), query, method in `{tfidf, bm25}` and `top_k > 0`, the result
list of `search` is the `top_k`-prefix of a list that is sorted by strictly
descending score with ties broken by strictly ascending document id and
holds exactly the documents `0 .. total_docs-1` whose model score is
strictly positive (each paired with its model score); in particular the
result length is at most `top_k`. -/
theorem search_ranked (s : CLIRState) (query method : String) (topK : Nat)
    (queryLang : String) (_hm : method = "tfidf" ∨ method = "bm25")
    (_hk : 0 < topK) :
    (s.search query method topK queryLang).1.length ≤ topK ∧
    ∃ ranked : List (Nat × ℝ),
      (s.search query method topK queryLang).1 = ranked.take topK ∧
      ranked.Pairwise rankOrd ∧
      ranked.Perm
        (scoredCandidates s (tokenize (workingQuery s query queryLang)) method) ∧
      ∀ p : Nat × ℝ, p ∈ ranked ↔
        (p.1 < s.documents.length ∧
          p.2 = scoreOf s.index method
              (tokenize (workingQuery s query queryLang)) p.1 ∧
          0 < p.2) := by
  have hres : (s.search query method topK queryLang).1 =
      (sortDesc (scoredCandidates s (tokenize (workingQuery s query queryLang))
        method)).take topK := rfl
  constructor
  · rw [hres]
    exact List.length_take_le topK _
  · refine ⟨sortDesc (scoredCandidates s
        (tokenize (workingQuery s query queryLang)) method),
      hres, ?_, sortDesc_perm _, ?_⟩
    · exact sortDesc_pairwise _ (scoredCandidates_pairwise s _ method)
    · intro p
      rw [(sortDesc_perm _).mem_iff]
      exact mem_scoredCandidates s _ method p

/-- Witness for C1 on the three-document corpus, query `"cat"`, method
`"bm25"`, `top_k = 5`. -/
theorem search_ranked_witness :
    (("bm25" = "tfidf" ∨ "bm25" = "bm25") ∧ 0 < 5) ∧
    ((sys8.search "cat" "bm25" 5 "en").1.length ≤ 5 ∧
    ∃ ranked : List (Nat × ℝ),
      (sys8.search "cat" "bm25" 5 "en").1 = ranked.take 5 ∧
      ranked.Pairwise rankOrd ∧
      ranked.Perm
        (scoredCandidates sys8 (tokenize (workingQuery sys8 "cat" "en")) "bm25") ∧
      ∀ p : Nat × ℝ, p ∈ ranked ↔
        (p.1 < sys8.documents.length ∧
          p.2 = scoreOf sys8.index "bm25"
              (tokenize (workingQuery sys8 "cat" "en")) p.1 ∧
          0 < p.2)) :=
  ⟨⟨Or.inr rfl, by decide⟩,
    search_ranked sys8 "cat" "bm25" 5 "en" (Or.inr rfl) (by decide)⟩

/-- C8: on the Scenario A corpus (`docs8`) and query `"cat"`, BM25 with
default parameters scores document `1` (tf = 2) strictly above document `0`
(tf = 1), document `2` scores exactly `0`, and document `2` does not occur
in the `search` results. -/
theorem scenarioA_bm25 :
    bm25Score (buildIndex docs8) 1.5 0.75 ["cat"] 0 <
      bm25Score (buildIndex docs8) 1.5 0.75 ["cat"] 1 ∧
    bm25Score (buildIndex docs8) 1.5 0.75 ["cat"] 2 = 0 ∧
    ((sys8.search "cat" "bm25" 10 "en").1.map Prod.fst).count 2 = 0 := by
  have hidf : 0 < bm25Idf (buildIndex docs8) "cat" := by
    rw [bm25Idf,
      (show (buildIndex docs8).totalDocs = 3 from by decide),
      (show (buildIndex docs8).getDocFreq "cat" = 2 from by decide)]
    apply Real.log_pos
    norm_num
  have hdl0 : docLenOf (buildIndex docs8) 0 = 2 := by
    rw [docLenOf, (show (buildIndex docs8).docLengths 0 = some 2 from by decide)]
    norm_num
  have hdl1 : docLenOf (buildIndex docs8) 1 = 3 := by
    rw [docLenOf, (show (buildIndex docs8).docLengths 1 = some 3 from by decide)]
    norm_num
  have havg : ((buildIndex docs8).avgDocLength : ℝ) = 8 / 3 := by
    have hq : (buildIndex docs8).avgDocLength = (8 : ℚ) / 3 := by
      show (if 0 < docs8.length then
          (((docs8.map (fun doc => (docTokens doc).length)).sum : ℚ)) /
            (docs8.length : ℚ)
        else 0) = (8 : ℚ) / 3
      rw [(show (docs8.map (fun doc => (docTokens doc).length)).sum = 8 from by decide),
        (show docs8.length = 3 from by decide)]
      norm_num
    rw [hq]
    norm_num
  have e0 : bm25Score (buildIndex docs8) 1.5 0.75 ["cat"] 0 =
      bm25Idf (buildIndex docs8) "cat" *
        ((1 : ℝ) * (1.5 + 1) / (1 + 1.5 * (1 - 0.75 + 0.75 * (2 / (8 / 3))))) := by
    simp only [bm25Score, List.foldl_cons, List.foldl_nil]
    rw [if_neg (show ¬((buildIndex docs8).getDocFreq "cat" = 0) from by decide),
      if_pos (show 0 < getTf ((buildIndex docs8).getPostings "cat") 0 from by decide),
      (show getTf ((buildIndex docs8).getPostings "cat") 0 = 1 from by decide),
      hdl0, havg, bm25TermWeight]
    norm_num
  have e1 : bm25Score (buildIndex docs8) 1.5 0.75 ["cat"] 1 =
      bm25Idf (buildIndex docs8) "cat" *
        ((2 : ℝ) * (1.5 + 1) / (2 + 1.5 * (1 - 0.75 + 0.75 * (3 / (8 / 3))))) := by
    simp only [bm25Score, List.foldl_cons, List.foldl_nil]
    rw [if_neg (show ¬((buildIndex docs8).getDocFreq "cat" = 0) from by decide),
      if_pos (show 0 < getTf ((buildIndex docs8).getPostings "cat") 1 from by decide),
      (show getTf ((buildIndex docs8).getPostings "cat") 1 = 2 from by decide),
      hdl1, havg, bm25TermWeight]
    norm_num
  have e2 : bm25Score (buildIndex docs8) 1.5 0.75 ["cat"] 2 = 0 := by
    simp only [bm25Score, List.foldl_cons, List.foldl_nil]
    rw [if_neg (show ¬((buildIndex docs8).getDocFreq "cat" = 0) from by decide),
      if_neg (show ¬(0 < getTf ((buildIndex docs8).getPostings "cat") 2) from by decide)]
  refine ⟨?_, e2, ?_⟩
  · rw [e0, e1]
    apply mul_lt_mul_of_pos_left _ hidf
    norm_num
  · rw [List.count_eq_zero]
    intro hmem
    obtain ⟨p, hp, hp2⟩ := List.mem_map.mp hmem
    have hp' : p ∈ (sortDesc (scoredCandidates sys8
        (tokenize (workingQuery sys8 "cat" "en")) "bm25")).take 10 := hp
    have hmemc : p ∈ scoredCandidates sys8
        (tokenize (workingQuery sys8 "cat" "en")) "bm25" :=
      (sortDesc_perm _).mem_iff.mp ((List.take_sublist 10 _).subset hp')
    obtain ⟨_, hscore, hpos⟩ :=
      (mem_scoredCandidates sys8 _ "bm25" p).mp hmemc
    have hqt : tokenize (workingQuery sys8 "cat" "en") = ["cat"] := by decide
    rw [hqt] at hscore
    have hso : scoreOf sys8.index "bm25" ["cat"] p.1 =
        bm25Score (buildIndex docs8) 1.5 0.75 ["cat"] p.1 := by
      rw [scoreOf, if_neg (show ¬(("bm25" : String) = "tfidf") from by decide)]
      rfl
    rw [hso, hp2, e2] at hscore
    rw [hscore] at hpos
    exact lt_irrefl 0 hpos

/-- C9: when no translation capability is configured, or the translation
call raises, a search whose query language differs from `en` proceeds on
the original untranslated query text (its result list equals that of the
same search issued with `query_lang = 'en'`), the record appended to the
history has `translated_query = None`, and the record is appended. -/
theorem search_translation_fallback (s : CLIRState) (query method : String)
    (topK : Nat) (queryLang : String) (hlang : queryLang ≠ "en")
    (htr : s.translator = none ∨
      ∃ f e, s.translator = some f ∧ f query queryLang "en" = Except.error e) :
    (s.search query method topK queryLang).1 =
      (s.search query method topK "en").1 ∧
    (s.search query method topK queryLang).2.translatedQuery = none ∧
    (s.searchNext query method topK queryLang).searchHistory =
      s.searchHistory ++ [(s.search query method topK queryLang).2] := by
  have hw : workingQuery s query queryLang = query := by
    rw [workingQuery, if_pos hlang]
    rcases htr with h | ⟨f, e, hf, herr⟩
    · rw [h]
      rfl
    · rw [hf]
      show (match f query queryLang "en" with
        | Except.ok t => t
        | Except.error _ => query) = query
      rw [herr]
  have hw2 : workingQuery s query "en" = query := by
    rw [workingQuery, if_neg (by simp)]
  refine ⟨?_, ?_, rfl⟩
  · show (sortDesc (scoredCandidates s
        (tokenize (workingQuery s query queryLang)) method)).take topK =
      (sortDesc (scoredCandidates s
        (tokenize (workingQuery s query "en")) method)).take topK
    rw [hw, hw2]
  · show (if workingQuery s query queryLang ≠ query then
        some (workingQuery s query queryLang) else none) = none
    rw [hw]
    simp

/-- Witness for C9: on `sys8` (no translator configured) a French-language
search for `"cat"` returns the same results as the English-language one and
records no translated query. -/
theorem search_translation_fallback_witness :
    (("fr" : String) ≠ "en" ∧ sys8.translator = none) ∧
    ((sys8.search "cat" "bm25" 5 "fr").1 = (sys8.search "cat" "bm25" 5 "en").1 ∧
    (sys8.search "cat" "bm25" 5 "fr").2.translatedQuery = none ∧
    (sys8.searchNext "cat" "bm25" 5 "fr").searchHistory =
      sys8.searchHistory ++ [(sys8.search "cat" "bm25" 5 "fr").2]) :=
  ⟨⟨by decide, rfl⟩,
    search_translation_fallback sys8 "cat" "bm25" 5 "fr" (by decide) (Or.inl rfl)⟩

/-- C10: a `search` call with a method string that is neither `"tfidf"` nor
`"bm25"` falls back to the BM25 model (`dict.get` default): its result list
equals that of the same call with `method = "bm25"`, while the record keeps
the caller's original method string. -/
theorem search_unknown_method (s : CLIRState) (query method : String)
    (topK : Nat) (queryLang : String) (h1 : method ≠ "tfidf")
    (_h2 : method ≠ "bm25") :
    (s.search query method topK queryLang).1 =
      (s.search query "bm25" topK queryLang).1 ∧
    (s.search query method topK queryLang).2.method = method := by
  have hs : scoreOf s.index method = scoreOf s.index "bm25" := by
    rw [scoreOf, scoreOf, if_neg h1,
      if_neg (show ¬(("bm25" : String) = "tfidf") from by decide)]
  refine ⟨?_, rfl⟩
  show (sortDesc (scoredCandidates s
      (tokenize (workingQuery s query queryLang)) method)).take topK =
    (sortDesc (scoredCandidates s
      (tokenize (workingQuery s query queryLang)) "bm25")).take topK
  rw [scoredCandidates, scoredCandidates, hs]

/-- Witness for C10: the unknown method string `"fuzzy"` on `sys8` behaves
as BM25 and is stored unchanged in the record. -/
theorem search_unknown_method_witness :
    (("fuzzy" : String) ≠ "tfidf" ∧ ("fuzzy" : String) ≠ "bm25") ∧
    ((sys8.search "cat" "fuzzy" 5 "en").1 =
      (sys8.search "cat" "bm25" 5 "en").1 ∧
    (sys8.search "cat" "fuzzy" 5 "en").2.method = "fuzzy") :=
  ⟨⟨by decide, by decide⟩,
    search_unknown_method sys8 "cat" "fuzzy" 5 "en" (by decide) (by decide)⟩

end BaECLIR
